import Mathlib

/-!
Shallow embedding of the obsidian-study-assist plugin (src/src/main.ts) and
proofs of the spec's claims about it.  Pure computations of the plugin
(scheduler, review-session stepping, geometry normalization, progress pruning,
JSON fallback reading, flashcard parsing, annotation export, flashcard
generation) are translated into executable Lean definitions; the host
viewer/DOM, clock and storage adapter appear as explicit parameters.
-/

namespace StudyAssist

/-- The four highlight colors of the plugin (type HighlightColor in main.ts). -/
inductive HighlightColor where
  | yellow
  | green
  | blue
  | flashcard
deriving DecidableEq, Repr

/-- A page-local unit rectangle as stored in a highlight (interface
HighlightRect); coordinates are modelled as rationals (exact arithmetic in
place of JS floats). -/
structure HighlightRect where
  x : ℚ
  y : ℚ
  w : ℚ
  h : ℚ
deriving DecidableEq, Repr

/-- One per-page rectangle group of a highlight (interface HighlightPage);
`page` is the zero-based page index. -/
structure HighlightPage where
  page : Int
  rects : List HighlightRect
deriving DecidableEq, Repr

/-- A stored highlight (interface Highlight).  `flashcardGenerated` is the
optional boolean field (`undefined` is `none`). -/
structure Highlight where
  id : String
  color : HighlightColor
  isFlashcard : Bool
  text : String
  createdAt : String
  pages : List HighlightPage
  flashcardGenerated : Option Bool
deriving DecidableEq, Repr

/-- A per-source highlight document (interface HighlightFile). -/
structure HighlightFile where
  version : Int
  sourcePath : String
  highlights : List Highlight
deriving DecidableEq, Repr

/-- A flashcard (interface Flashcard). -/
structure Flashcard where
  id : String
  sourcePath : String
  highlightIds : List String
  question : String
  answer : String
  createdAt : String
deriving DecidableEq, Repr

/-- The single global flashcard document (interface FlashcardFile). -/
structure FlashcardFile where
  version : Int
  cards : List Flashcard
deriving DecidableEq, Repr

/-- Review state of one card (interface CardProgress).  Timestamps are
modelled as integer day counts; the optional fields are `Option`s. -/
structure CardProgress where
  lastReviewedAt : Option Int := none
  nextDueAt : Option Int := none
  streak : Int
  intervalDays : Int
  done : Option Bool := none
deriving DecidableEq, Repr

/-- The progress map `Record<string, CardProgress>` of a ProgressFile, as an
association list whose keys are unique; a plain JS object keeps a key's
position on update and appends new keys at the end, which `setProgressEntry`
reproduces. -/
abbrev ProgressMap := List (String × CardProgress)

/-- The single global progress document (interface ProgressFile). -/
structure ProgressFile where
  version : Int
  progress : ProgressMap
deriving DecidableEq, Repr

/-- JS object property update `data.progress[cardId] = current`: an existing
key is overwritten in place, a new key is appended at the end. -/
def setProgressEntry (m : ProgressMap) (k : String) (v : CardProgress) : ProgressMap :=
  if m.any (fun e => e.1 = k) then
    m.map (fun e => if e.1 = k then (e.1, v) else e)
  else
    m ++ [(k, v)]

/-- JS property read `data.progress[cardId]` (`undefined` is `none`). -/
def getProgressEntry (m : ProgressMap) (k : String) : Option CardProgress :=
  List.lookup k m

/-- The scheduler step `buildNextProgress(previous, isGood)` of main.ts
(lines 793-821).  `now` is the clock value (`new Date()`), in days; the
source's `nextDue.setDate(now.getDate() + (isGood ? intervalDays : 0))`
becomes integer day addition. -/
def buildNextProgress (now : Int) (previous : Option CardProgress) (isGood : Bool) :
    CardProgress :=
  let start : CardProgress := previous.getD { streak := 0, intervalDays := 0 }
  let stepped : CardProgress :=
    if isGood then
      { start with
        streak := start.streak + 1
        intervalDays := max 1 (start.intervalDays + (start.streak + 1))
        done := some true }
    else
      { start with streak := 0, intervalDays := 0, done := some false }
  { stepped with
    lastReviewedAt := some now
    nextDueAt := some (now + (if isGood then stepped.intervalDays else 0)) }

/-- The default previous state the scheduler substitutes for a missing entry. -/
def defaultProgress : CardProgress := { streak := 0, intervalDays := 0 }

/-- Folding a sequence of (grade, clock) pairs through the scheduler, each
step feeding the previous result back in as `previous`. -/
def runGrades (init : CardProgress) (gs : List (Bool × Int)) : CardProgress :=
  gs.foldl (fun s g => buildNextProgress g.2 (some s) g.1) init

/-- The review session state of FlashcardView: full card list, rotation
index, answer-reveal flag, and the (cached) progress map. -/
structure SessionState where
  cards : List Flashcard
  index : Nat
  showingAnswer : Bool
  progress : ProgressMap
deriving DecidableEq, Repr

/-- FlashcardView.remainingCards: cards whose progress entry is absent or has
`done` not true (`!this.progress[card.id]?.done`). -/
def remainingCards (cards : List Flashcard) (progress : ProgressMap) : List Flashcard :=
  cards.filter (fun card =>
    ! (((getProgressEntry progress card.id).bind (fun p => p.done)).getD false))

/-- FlashcardView.currentCard: `remaining[index % remaining.length]`, none
when nothing remains. -/
def currentCard (s : SessionState) : Option Flashcard :=
  let r := remainingCards s.cards s.progress
  if r.isEmpty then none else r.get? (s.index % r.length)

/-- FlashcardView.handleGrade: run the scheduler on the current card, store
the result in the progress map (the in-memory cache the view reloads),
advance the index against the new remaining set (0 if now empty), and reset
the reveal flag.  No card showing means no-op. -/
def handleGrade (now : Int) (isGood : Bool) (s : SessionState) : SessionState :=
  match currentCard s with
  | none => s
  | some card =>
    let p' := setProgressEntry s.progress card.id
      (buildNextProgress now (getProgressEntry s.progress card.id) isGood)
    let r := remainingCards s.cards p'
    { s with
      progress := p'
      index := if 0 < r.length then (s.index + 1) % r.length else 0
      showingAnswer := false }

/-- What FlashcardView.render displays: the empty-card-list message, the
all-done message, or the current card's question/answer. -/
inductive RenderKind where
  | noCards
  | finished
  | showing (text : String)
deriving DecidableEq, Repr

/-- The branch FlashcardView.render takes: no current card splits on whether
the card list itself is empty; otherwise the question or the answer shows. -/
def renderKind (s : SessionState) : RenderKind :=
  match currentCard s with
  | none => if s.cards.isEmpty then RenderKind.noCards else RenderKind.finished
  | some card => RenderKind.showing (if s.showingAnswer then card.answer else card.question)

/-- Concrete card A for the spec's review-session worked example. -/
def cardA : Flashcard :=
  { id := "a", sourcePath := "doc.pdf", highlightIds := [], question := "qA",
    answer := "aA", createdAt := "t0" }

/-- Concrete card B for the worked example. -/
def cardB : Flashcard :=
  { id := "b", sourcePath := "doc.pdf", highlightIds := [], question := "qB",
    answer := "aB", createdAt := "t0" }

/-- Concrete card C for the worked example. -/
def cardC : Flashcard :=
  { id := "c", sourcePath := "doc.pdf", highlightIds := [], question := "qC",
    answer := "aC", createdAt := "t0" }

/-- The worked example's starting session: cards [A,B,C], empty progress. -/
def sessionStart : SessionState :=
  { cards := [cardA, cardB, cardC], index := 0, showingAnswer := false, progress := [] }

/-- The session after grading the current card (A) as good. -/
def sessionAfterA : SessionState := handleGrade 0 true sessionStart

/-- The session after a second good grade (on the then-current card C). -/
def sessionAfterTwo : SessionState := handleGrade 1 true sessionAfterA

/-- The session after a third good grade (on the last remaining card B). -/
def sessionAfterThree : SessionState := handleGrade 2 true sessionAfterTwo

/-- A session whose card list itself is empty. -/
def emptySession : SessionState :=
  { cards := [], index := 0, showingAnswer := false, progress := [] }

/-- The progress-pruning pass of replaceAllCards (pruneProgress in main.ts):
every progress entry whose key is not among the new cards' ids is deleted,
the others stay in place. -/
def pruneProgress (cards : List Flashcard) (m : ProgressMap) : ProgressMap :=
  m.filter (fun e => cards.any (fun c => c.id = e.1))

/-- removeProgress: `delete data.progress[cardId]`. -/
def removeProgress (m : ProgressMap) (cardId : String) : ProgressMap :=
  m.filter (fun e => e.1 ≠ cardId)

/-- replaceAllCards: write the full new card set and prune progress against
it; returns the new flashcard document and the new progress map. -/
def replaceAllCards (cards : List Flashcard) (m : ProgressMap) :
    FlashcardFile × ProgressMap :=
  ({ version := 1, cards := cards }, pruneProgress cards m)

/-- The manager view's delete handler: splice the card out of the list,
replaceAllCards (which prunes progress), then removeProgress on the deleted
card's id.  An out-of-range index is a no-op. -/
def deleteCardAt (cards : List Flashcard) (i : Nat) (m : ProgressMap) :
    List Flashcard × ProgressMap :=
  match cards.get? i with
  | none => (cards, m)
  | some card =>
    (cards.eraseIdx i, removeProgress (pruneProgress (cards.eraseIdx i) m) card.id)

/-- A client-space rectangle (DOMRect: left, top, width, height; right and
bottom are left+width and top+height), over exact rationals. -/
structure ClientRect where
  left : ℚ
  top : ℚ
  width : ℚ
  height : ℚ
deriving DecidableEq, Repr

/-- A mounted page element: its 1-based dataset page number and its current
bounding client rect. -/
structure PageEl where
  pageNumber : Int
  box : ClientRect
deriving DecidableEq, Repr

/-- The page-match test of buildHighlightFromSelection: the rectangle's
center lies within the page's bounding box (inclusive on all edges). -/
def containsCenter (box : ClientRect) (r : ClientRect) : Bool :=
  decide (box.left ≤ r.left + r.width / 2) &&
    decide (r.left + r.width / 2 ≤ box.left + box.width) &&
    decide (box.top ≤ r.top + r.height / 2) &&
    decide (r.top + r.height / 2 ≤ box.top + box.height)

/-- Normalization of a selection rectangle against its matched page box
(buildHighlightFromSelection): page-relative unit coordinates. -/
def normalizeRect (box : ClientRect) (r : ClientRect) : HighlightRect :=
  { x := (r.left - box.left) / box.width
    y := (r.top - box.top) / box.height
    w := r.width / box.width
    h := r.height / box.height }

/-- The overlay draw of renderHighlights: a stored unit rectangle scaled back
into client space against a page's current box (`left = x * 100%` of the
page layer, and so on). -/
def denormalizeRect (box : ClientRect) (n : HighlightRect) : ClientRect :=
  { left := box.left + n.x * box.width
    top := box.top + n.y * box.height
    width := n.w * box.width
    height := n.h * box.height }

/-- JS `Map<number, HighlightRect[]>` update used by the capture: an existing
page key has the rectangle pushed onto its list in place, a new page key is
appended at the end (insertion order). -/
def insertPageRect (acc : List (Int × List HighlightRect)) (k : Int)
    (v : HighlightRect) : List (Int × List HighlightRect) :=
  if acc.any (fun e => e.1 = k) then
    acc.map (fun e => if e.1 = k then (e.1, e.2 ++ [v]) else e)
  else acc ++ [(k, [v])]

/-- The pageMap loop of buildHighlightFromSelection: each retained rectangle
is matched to the first mounted page containing its center (pages.find),
normalized against that page's box, and grouped under the zero-based page
index; unmatched rectangles are dropped. -/
def buildPageMap (pageEls : List PageEl) (rects : List ClientRect) :
    List (Int × List HighlightRect) :=
  rects.foldl
    (fun acc r =>
      match pageEls.find? (fun p => containsCenter p.box r) with
      | none => acc
      | some p => insertPageRect acc (p.pageNumber - 1) (normalizeRect p.box r))
    []

/-- buildHighlightFromSelection: drop degenerate rectangles (width or height
at most 1), fail when nothing is left, when no page is mounted, or when no
rectangle's center falls in a page; otherwise produce the highlight with one
page group per matched page.  `id`, `text` and `createdAt` stand for the
generated id, `selection.toString()` and the capture time. -/
def buildHighlightFromSelection (id text createdAt : String)
    (selRects : List ClientRect) (pageEls : List PageEl)
    (color : HighlightColor) : Option Highlight :=
  let rects := selRects.filter (fun r => decide (1 < r.width) && decide (1 < r.height))
  if rects.isEmpty then none
  else if pageEls.isEmpty then none
  else
    let m := buildPageMap pageEls rects
    if m.isEmpty then none
    else
      some
        { id := id
          color := color
          isFlashcard := decide (color = HighlightColor.flashcard)
          text := text
          createdAt := createdAt
          pages := m.map (fun e => { page := e.1, rects := e.2 })
          flashcardGenerated := none }

/-- The toolbar capture click handler's persistence decision: when the
capture fails (`if (!highlight)`) the handler notifies and returns before
`saveHighlight`, so nothing is written; otherwise the highlight is saved
under the source file's path. -/
def captureClickSave (id text createdAt : String) (selRects : List ClientRect)
    (pageEls : List PageEl) (color : HighlightColor) (filePath : String) :
    Option (String × Highlight) :=
  match buildHighlightFromSelection id text createdAt selRects pageEls color with
  | none => none
  | some h => some (filePath, h)

/-- A JSON value as produced by JSON.parse; numbers are modelled as
integers. -/
inductive Json where
  | null
  | bool (b : Bool)
  | num (n : Int)
  | str (s : String)
  | arr (items : List Json)
  | obj (fields : List (String × Json))

/-- JS optional property read (`item?.question`): the field of an object,
`undefined` (none) on any other value. -/
def getField (j : Json) (k : String) : Option Json :=
  match j with
  | Json.obj fields => List.lookup k fields
  | _ => none

/-- JS truthiness of a possibly-absent value: undefined, null, false, 0 and
the empty string are falsy; every other value is truthy. -/
def truthy : Option Json → Bool
  | none => false
  | some Json.null => false
  | some (Json.bool b) => b
  | some (Json.num n) => decide (n ≠ 0)
  | some (Json.str s) => decide (s ≠ "")
  | some (Json.arr _) => true
  | some (Json.obj _) => true

mutual

/-- JS String() conversion of a JSON value; an array joins its elements with
commas (null elements becoming empty), an object prints its tag. -/
def jsString : Json → String
  | Json.null => "null"
  | Json.bool b => cond b "true" "false"
  | Json.num n => toString n
  | Json.str s => s
  | Json.arr items => jsStringArr items
  | Json.obj _ => "[object Object]"

/-- Comma join of an array's elements under JS String() conversion. -/
def jsStringArr : List Json → String
  | [] => ""
  | [Json.null] => ""
  | [j] => jsString j
  | Json.null :: rest => "," ++ jsStringArr rest
  | j :: rest => jsString j ++ "," ++ jsStringArr rest

end

/-- String() of a field read: an absent field (undefined) prints as
"undefined"; never reached on kept items. -/
def jsStringOfField (o : Option Json) : String :=
  match o with
  | some j => jsString j
  | none => "undefined"

/-- readJson of main.ts (lines 873-883): the storage adapter is a partial map
from paths to raw contents, JSON.parse a partial parse, and Object.assign a
merge of the parsed value over the fallback.  A missing file or a failed
parse yields the fallback; no error propagates. -/
def readJson {T J : Type} (store : String → Option String) (parse : String → Option J)
    (assign : T → J → T) (path : String) (fallback : T) : T :=
  match store path with
  | none => fallback
  | some raw =>
    match parse raw with
    | none => fallback
    | some v => assign fallback v

/-- The typed-empty highlight document the readers pass as fallback. -/
def defaultHighlightFile (sourcePath : String) : HighlightFile :=
  { version := 1, sourcePath := sourcePath, highlights := [] }

/-- The typed-empty flashcard document the readers pass as fallback. -/
def defaultFlashcardFile : FlashcardFile := { version := 1, cards := [] }

/-- The typed-empty progress document the readers pass as fallback. -/
def defaultProgressFile : ProgressFile := { version := 1, progress := [] }

/-- parseFlashcards of main.ts (lines 1036-1049): parse the raw response,
return the empty list on a parse failure or a non-array, keep exactly the
items whose question and answer fields are truthy, and convert both fields
to strings. -/
def parseFlashcards (parse : String → Option Json) (raw : String) :
    List (String × String) :=
  match parse raw with
  | none => []
  | some parsed =>
    match parsed with
    | Json.arr items =>
      (items.filter (fun item =>
        truthy (getField item "question") && truthy (getField item "answer"))).map
        (fun item =>
          (jsStringOfField (getField item "question"),
            jsStringOfField (getField item "answer")))
    | _ => []

/-- The amended C8 drop condition, stated in the spec's vocabulary: the field
is absent, or present but JS-falsy (null, false, 0, or the empty string). -/
def fieldAbsentOrFalsy (item : Json) (k : String) : Prop :=
  getField item k = none ∨ getField item k = some Json.null ∨
    getField item k = some (Json.bool false) ∨ getField item k = some (Json.num 0) ∨
    getField item k = some (Json.str "")

/-- Counterexample item for C8: both fields present, question empty. -/
def cxItem : Json := Json.obj [("question", Json.str ""), ("answer", Json.str "ok")]

/-- Counterexample parse for C8: every raw text parses to an array holding
only cxItem (as JSON.parse does on that array's text). -/
def cxParse : String → Option Json := fun _ => some (Json.arr [cxItem])

/-- The pending batch of a generation run: highlights of the source document
with isFlashcard set and flashcardGenerated not yet true. -/
def pendingHighlights (highlights : List Highlight) : List Highlight :=
  highlights.filter (fun h => h.isFlashcard && ! (h.flashcardGenerated.getD false))

/-- The new-card construction of generateFlashcardsFromActivePdf: every
parsed question/answer pair becomes a card whose highlightIds are the ids of
the whole pending batch.  `freshId` stands for the id generator. -/
def generatedCards (sourcePath now : String) (freshId : Nat → String)
    (highlights : List Highlight) (qas : List (String × String)) : List Flashcard :=
  qas.enum.map (fun p =>
    { id := freshId p.1
      sourcePath := sourcePath
      highlightIds := (pendingHighlights highlights).map (fun h => h.id)
      question := p.2.1
      answer := p.2.2
      createdAt := now })

/-- Whitespace collapsing of a bullet's text:
`text.replace(/\s+/g, " ").trim()` — every whitespace run becomes one space
and outer whitespace is dropped. -/
def collapseWhitespace (s : String) : String :=
  String.intercalate " " ((s.split (fun c => c.isWhitespace)).filter (fun t => !t.isEmpty))

/-- The stored name of a color. -/
def colorKey : HighlightColor → String
  | HighlightColor.yellow => "yellow"
  | HighlightColor.green => "green"
  | HighlightColor.blue => "blue"
  | HighlightColor.flashcard => "flashcard"

/-- JS `charAt(0).toUpperCase() + slice(1)`. -/
def capitalizeFirst (s : String) : String :=
  (s.take 1).toUpper ++ s.drop 1

/-- titleForColor of buildAnnotationMarkdown. -/
def titleForColor (c : HighlightColor) : String :=
  if c = HighlightColor.flashcard then "Flashcard" else capitalizeFirst (colorKey c)

/-- Array.from(new Set(l)): de-duplication keeping first occurrences. -/
def dedupFirst : List Int → List Int
  | [] => []
  | x :: xs => x :: dedupFirst (xs.filter (fun y => y ≠ x))
termination_by l => l.length
decreasing_by
  simp only [List.length_cons]
  have := List.length_filter_le (fun y => decide (y ≠ x)) xs
  omega

/-- The bullet's page list: the highlight's 1-based page numbers,
de-duplicated and sorted ascending (`.sort((a, b) => a - b)`). -/
def sortedPages (h : Highlight) : List Int :=
  List.insertionSort (fun a b => a ≤ b) (dedupFirst (h.pages.map (fun p => p.page + 1)))

/-- One bullet of the export: collapsed text plus the page list, the latter
omitted when the highlight has no page entries. -/
def bulletLine (h : Highlight) : String :=
  "- " ++ collapseWhitespace h.text ++
    (if (sortedPages h).isEmpty then ""
      else " (pages " ++ String.intercalate ", " ((sortedPages h).map toString) ++ ")")

/-- The groups Map update of buildAnnotationMarkdown: a highlight is pushed
onto its color's list in place; a new color is appended at the end. -/
def pushGroup (m : List (HighlightColor × List Highlight)) (c : HighlightColor)
    (h : Highlight) : List (HighlightColor × List Highlight) :=
  if m.any (fun e => e.1 = c) then
    m.map (fun e => if e.1 = c then (e.1, e.2 ++ [h]) else e)
  else m ++ [(c, [h])]

/-- The groups Map of buildAnnotationMarkdown, built by one forward pass. -/
def buildGroups (highlights : List Highlight) : List (HighlightColor × List Highlight) :=
  highlights.foldl (fun m h => pushGroup m h.color h) []

/-- JS Map.get: the list stored under a color, if any. -/
def groupGet (m : List (HighlightColor × List Highlight)) (c : HighlightColor) :
    Option (List Highlight) :=
  (m.find? (fun e => e.1 = c)).map (fun e => e.2)

/-- The fixed priority order of the export's sections. -/
def colorOrder : List HighlightColor :=
  [HighlightColor.flashcard, HighlightColor.yellow, HighlightColor.green,
    HighlightColor.blue]

/-- buildAnnotationMarkdown of main.ts (lines 1105-1141): the no-annotations
marker for empty input; otherwise, per color in the fixed order, a heading,
one bullet per highlight of that color and a blank separator, then the lines
joined by newlines, right-trimmed, with one final newline.  The source
function's file argument is unused by it beyond this signature. -/
def buildAnnotationMarkdown (file : String) (highlights : List Highlight) : String :=
  if highlights.isEmpty then "_No annotations found._"
  else
    String.trimRight (String.intercalate "\n"
      (colorOrder.foldl
        (fun lines color =>
          match groupGet (buildGroups highlights) color with
          | none => lines
          | some list =>
            if list.isEmpty then lines
            else lines ++ ("## " ++ titleForColor color) :: list.map bulletLine ++ [""])
        [])) ++ "\n"

/-- The export as the spec's sentence words it (the second definition of the
refinement): group the highlights by color via a plain filter, keep the fixed
color order, emit a heading only for a non-empty group followed by its
bullets and a blank, join, right-trim, final newline; the no-annotations
marker for empty input. -/
def annotationSpecText (highlights : List Highlight) : String :=
  if highlights.isEmpty then "_No annotations found._"
  else
    String.trimRight (String.intercalate "\n"
      (colorOrder.map (fun color =>
        if (highlights.filter (fun h => h.color = color)).isEmpty then []
        else ("## " ++ titleForColor color) ::
          (highlights.filter (fun h => h.color = color)).map bulletLine ++ [""])).flatten) ++
      "\n"

/-- Concrete pending highlight for the C10 witness. -/
def gcHighlight : Highlight :=
  { id := "h1", color := HighlightColor.flashcard, isFlashcard := true,
    text := "hl", createdAt := "t0", pages := [], flashcardGenerated := none }

/-- Concrete page box for witnesses: a 10 by 20 page at the origin. -/
def witnessBox : ClientRect := { left := 0, top := 0, width := 10, height := 20 }

/-- Concrete selection rectangle for witnesses, centered inside witnessBox. -/
def witnessRect : ClientRect := { left := 2, top := 3, width := 4, height := 5 }

/-- Concrete mounted page far away from witnessRect, for the no-capture
witness. -/
def witnessFarPage : PageEl :=
  { pageNumber := 1, box := { left := 100, top := 100, width := 50, height := 50 } }

end StudyAssist

namespace StudyAssist

/-- Nonnegativity of streak and interval is preserved by one scheduler step. -/
theorem buildNextProgress_nonneg (now : Int) (s : CardProgress) (g : Bool)
    (hs : 0 ≤ s.streak) (hi : 0 ≤ s.intervalDays) :
    0 ≤ (buildNextProgress now (some s) g).streak ∧
      0 ≤ (buildNextProgress now (some s) g).intervalDays := by
  unfold buildNextProgress
  cases g <;> simp <;> omega

/-- Nonnegativity of streak and interval holds along every run of the
scheduler from a nonnegative start. -/
theorem runGrades_nonneg (gs : List (Bool × Int)) (init : CardProgress)
    (hs : 0 ≤ init.streak) (hi : 0 ≤ init.intervalDays) :
    0 ≤ (runGrades init gs).streak ∧ 0 ≤ (runGrades init gs).intervalDays := by
  induction gs generalizing init with
  | nil => exact ⟨hs, hi⟩
  | cons g gs ih =>
    have step := buildNextProgress_nonneg g.2 init g.1 hs hi
    exact ih (buildNextProgress g.2 (some init) g.1) step.1 step.2

/-- C1: the scheduler step matches the spec's three worked examples: from no
previous state a `good` grade gives streak 1, interval 1, done; from
streak 1 / interval 1 a `good` grade gives streak 2, interval 3, done; and
from any previous state (or none) an `again` grade gives streak 0,
interval 0, not done. -/
theorem scheduler_worked_examples (now : Int) (p : CardProgress) :
    (buildNextProgress now none true).streak = 1 ∧
      (buildNextProgress now none true).intervalDays = 1 ∧
      (buildNextProgress now none true).done = some true ∧
      (buildNextProgress now (some { streak := 1, intervalDays := 1 }) true).streak = 2 ∧
      (buildNextProgress now (some { streak := 1, intervalDays := 1 }) true).intervalDays = 3 ∧
      (buildNextProgress now (some { streak := 1, intervalDays := 1 }) true).done = some true ∧
      (buildNextProgress now (some p) false).streak = 0 ∧
      (buildNextProgress now (some p) false).intervalDays = 0 ∧
      (buildNextProgress now (some p) false).done = some false ∧
      (buildNextProgress now none false).streak = 0 ∧
      (buildNextProgress now none false).intervalDays = 0 ∧
      (buildNextProgress now none false).done = some false := by
  unfold buildNextProgress
  norm_num

/-- C4: along any grade sequence from the default state, the next step sets
`done` to true exactly on a positive grade (and to false on a negative one),
a negative grade resets streak and interval to 0, and a positive grade never
decreases the interval. -/
theorem scheduler_invariants (gs : List (Bool × Int)) (t : Int) :
    (buildNextProgress t (some (runGrades defaultProgress gs)) true).done = some true ∧
      (buildNextProgress t (some (runGrades defaultProgress gs)) false).done = some false ∧
      (buildNextProgress t (some (runGrades defaultProgress gs)) false).streak = 0 ∧
      (buildNextProgress t (some (runGrades defaultProgress gs)) false).intervalDays = 0 ∧
      (runGrades defaultProgress gs).intervalDays ≤
        (buildNextProgress t (some (runGrades defaultProgress gs)) true).intervalDays := by
  have hnn := runGrades_nonneg gs defaultProgress (by norm_num [defaultProgress])
    (by norm_num [defaultProgress])
  refine ⟨?_, ?_, ?_, ?_, ?_⟩ <;> simp [buildNextProgress]
  omega

/-- C2 counterexample: in the worked example, after grading card A as good
the code advances the rotation index to 1 against the new remaining set
[B,C], so the current card is C, not B as the claim states. -/
theorem review_current_after_grade_not_B : currentCard sessionAfterA ≠ some cardB := by
  decide

/-- C2 (amended): over cards [A,B,C] with empty progress the remaining set is
[A,B,C] and A is current; grading A as good marks A done, leaves remaining
[B,C] and makes C (not B) current; two further good grades (on C, then on the
last remaining card B) empty the remaining set, make the current card none,
and put the session in the finished render state, which differs from the
render state of a session whose card list is empty. -/
theorem review_session_worked_example :
    remainingCards sessionStart.cards sessionStart.progress = [cardA, cardB, cardC] ∧
      currentCard sessionStart = some cardA ∧
      ((getProgressEntry sessionAfterA.progress cardA.id).bind
        (fun p => p.done)).getD false = true ∧
      remainingCards sessionAfterA.cards sessionAfterA.progress = [cardB, cardC] ∧
      currentCard sessionAfterA = some cardC ∧
      currentCard sessionAfterTwo = some cardB ∧
      remainingCards sessionAfterThree.cards sessionAfterThree.progress = [] ∧
      currentCard sessionAfterThree = none ∧
      renderKind sessionAfterThree = RenderKind.finished ∧
      renderKind emptySession = RenderKind.noCards ∧
      RenderKind.finished ≠ RenderKind.noCards := by
  decide

/-- Looking a key up after filtering by a predicate on keys alone: the entry
survives exactly when the predicate holds of the key. -/
theorem lookup_filter_key (q : String → Bool) (k : String) (m : ProgressMap) :
    List.lookup k (m.filter (fun e => q e.1)) =
      if q k then List.lookup k m else none := by
  induction m with
  | nil => simp [List.lookup]
  | cons e t ih =>
    obtain ⟨k', v⟩ := e
    by_cases hk : k = k'
    · subst hk
      by_cases hq : q k
      · simp [List.filter, hq, List.lookup]
      · simp [List.filter, hq, List.lookup, ih]
    · have hbeq : (k == k') = false := beq_eq_false_iff_ne.mpr hk
      by_cases hq : q k'
      · simp [List.filter, hq, List.lookup, hbeq, ih]
      · simp [List.filter, hq, List.lookup, hbeq, ih]

/-- C5: pruning against a new card list keeps exactly the progress entries
whose id is among the new cards' ids, with unchanged values, and the delete
handler leaves no progress entry under the deleted card's id. -/
theorem progress_prune_and_delete (cards : List Flashcard) (m : ProgressMap)
    (i : Nat) (idv : String) :
    (List.lookup idv (pruneProgress cards m) =
        if idv ∈ cards.map (fun c => c.id) then List.lookup idv m else none) ∧
      (∀ card, cards.get? i = some card →
        List.lookup card.id (deleteCardAt cards i m).2 = none) := by
  constructor
  · have h := lookup_filter_key (fun s => cards.any (fun c => c.id = s)) idv m
    rw [pruneProgress, h]
    have hiff : (cards.any (fun c => c.id = idv) = true) ↔
        idv ∈ cards.map (fun c => c.id) := by
      simp [List.any_eq_true, List.mem_map]
    by_cases hm : idv ∈ cards.map (fun c => c.id)
    · simp [hiff.mpr hm, hm]
    · have hfalse : cards.any (fun c => c.id = idv) = false := by
        rw [← Bool.not_eq_true]
        exact fun hc => hm (hiff.mp hc)
      simp [hfalse, hm]
  · intro card hcard
    simp only [deleteCardAt, hcard]
    have h := lookup_filter_key (fun s => decide (s ≠ card.id)) card.id
      (pruneProgress (cards.eraseIdx i) m)
    simp only [decide_not, removeProgress]
    simpa using h

/-- C3: for a non-degenerate page box, denormalizing the stored unit
coordinates against the same page box reproduces the original selection
rectangle exactly, for every rectangle wider and taller than 1 whose center
the page box contains. -/
theorem normalize_denormalize_roundtrip (box r : ClientRect)
    (hw : 1 < r.width) (hh : 1 < r.height)
    (hbw : 0 < box.width) (hbh : 0 < box.height)
    (hc : containsCenter box r = true) :
    denormalizeRect box (normalizeRect box r) = r := by
  obtain ⟨bl, bt, bw, bh⟩ := box
  obtain ⟨rl, rt, rw2, rh2⟩ := r
  have hW : bw ≠ 0 := ne_of_gt hbw
  have hH : bh ≠ 0 := ne_of_gt hbh
  simp only [normalizeRect, denormalizeRect, ClientRect.mk.injEq]
  refine ⟨?_, ?_, ?_, ?_⟩ <;> field_simp

/-- Witness for C3 at a concrete box and rectangle. -/
theorem normalize_denormalize_roundtrip_witness :
    denormalizeRect witnessBox (normalizeRect witnessBox witnessRect) = witnessRect :=
  normalize_denormalize_roundtrip witnessBox witnessRect
    (by norm_num [witnessRect]) (by norm_num [witnessRect])
    (by norm_num [witnessBox]) (by norm_num [witnessBox])
    (by
      simp only [containsCenter, Bool.and_eq_true, decide_eq_true_eq]
      refine ⟨⟨⟨?_, ?_⟩, ?_⟩, ?_⟩ <;> norm_num [witnessBox, witnessRect])

/-- Folding the pageMap loop over rectangles none of which matches a page
never changes the accumulator. -/
theorem buildPageMap_eq_nil (pageEls : List PageEl) (rects : List ClientRect)
    (hout : ∀ r ∈ rects, ∀ p ∈ pageEls, containsCenter p.box r = false) :
    buildPageMap pageEls rects = [] := by
  have key : ∀ (rs : List ClientRect) (acc : List (Int × List HighlightRect)),
      (∀ r ∈ rs, ∀ p ∈ pageEls, containsCenter p.box r = false) →
      rs.foldl
        (fun acc r =>
          match pageEls.find? (fun p => containsCenter p.box r) with
          | none => acc
          | some p => insertPageRect acc (p.pageNumber - 1) (normalizeRect p.box r))
        acc = acc := by
    intro rs
    induction rs with
    | nil => intro acc _; rfl
    | cons r rs ih =>
      intro acc hall
      have hfind : pageEls.find? (fun p => containsCenter p.box r) = none := by
        rw [List.find?_eq_none]
        intro p hp
        simp [hall r (List.mem_cons_self r rs) p hp]
      simp only [List.foldl_cons, hfind]
      exact ih acc (fun r' hr' => hall r' (List.mem_cons_of_mem r hr'))
  exact key rects [] hout

/-- C7: when every retained (non-degenerate) selection rectangle has its
center in no mounted page box, the capture returns no highlight and the
click handler performs no save. -/
theorem capture_outside_pages_no_save (id text createdAt : String)
    (selRects : List ClientRect) (pageEls : List PageEl)
    (color : HighlightColor) (filePath : String)
    (hout : ∀ r ∈ selRects.filter
        (fun r => decide (1 < r.width) && decide (1 < r.height)),
      ∀ p ∈ pageEls, containsCenter p.box r = false) :
    buildHighlightFromSelection id text createdAt selRects pageEls color = none ∧
      captureClickSave id text createdAt selRects pageEls color filePath = none := by
  have hmap := buildPageMap_eq_nil pageEls
    (selRects.filter (fun r => decide (1 < r.width) && decide (1 < r.height))) hout
  have hb : buildHighlightFromSelection id text createdAt selRects pageEls color = none := by
    unfold buildHighlightFromSelection
    by_cases h1 : (selRects.filter
        (fun r => decide (1 < r.width) && decide (1 < r.height))).isEmpty
    · simp [h1]
    · by_cases h2 : pageEls.isEmpty
      · simp [h1, h2]
      · simp [h1, h2, hmap]
  refine ⟨hb, ?_⟩
  simp [captureClickSave, hb]

/-- Witness for C7 at a concrete selection and a concrete far-away page. -/
theorem capture_outside_pages_no_save_witness :
    buildHighlightFromSelection "h1" "txt" "t0" [witnessRect] [witnessFarPage]
        HighlightColor.yellow = none ∧
      captureClickSave "h1" "txt" "t0" [witnessRect] [witnessFarPage]
        HighlightColor.yellow "doc.pdf" = none :=
  capture_outside_pages_no_save "h1" "txt" "t0" [witnessRect] [witnessFarPage]
    HighlightColor.yellow "doc.pdf"
    (by
      intro r hr p hp
      rw [List.mem_filter] at hr
      simp only [List.mem_singleton] at hp
      obtain ⟨hr1, -⟩ := hr
      simp only [List.mem_singleton] at hr1
      subst hp
      subst hr1
      rw [Bool.eq_false_iff]
      intro hcc
      simp only [containsCenter, Bool.and_eq_true, decide_eq_true_eq] at hcc
      obtain ⟨⟨⟨h1, -⟩, -⟩, -⟩ := hcc
      norm_num [witnessFarPage, witnessRect] at h1)

/-- C6: reading any of the three document kinds is total, and a missing file
or a failed parse yields that kind's typed-empty default instead of an
error, for every store, parser, merge function and path. -/
theorem readJson_missing_or_corrupt_defaults (store : String → Option String)
    (parse : String → Option Json) (assignH : HighlightFile → Json → HighlightFile)
    (assignF : FlashcardFile → Json → FlashcardFile)
    (assignP : ProgressFile → Json → ProgressFile) (path sp : String) :
    (store path = none →
      readJson store parse assignH path (defaultHighlightFile sp) =
          defaultHighlightFile sp ∧
        readJson store parse assignF path defaultFlashcardFile = defaultFlashcardFile ∧
        readJson store parse assignP path defaultProgressFile = defaultProgressFile) ∧
      (∀ raw, store path = some raw → parse raw = none →
        readJson store parse assignH path (defaultHighlightFile sp) =
            defaultHighlightFile sp ∧
          readJson store parse assignF path defaultFlashcardFile = defaultFlashcardFile ∧
          readJson store parse assignP path defaultProgressFile = defaultProgressFile) := by
  constructor
  · intro h
    simp [readJson, h]
  · intro raw h hp
    simp [readJson, h, hp]

/-- Truthiness in the amended C8 vocabulary: a possibly-absent value is
truthy exactly when it is not absent, null, false, zero or empty. -/
theorem truthy_iff_not_falsy (o : Option Json) :
    truthy o = true ↔
      ¬ (o = none ∨ o = some Json.null ∨ o = some (Json.bool false) ∨
        o = some (Json.num 0) ∨ o = some (Json.str "")) := by
  cases o with
  | none => simp [truthy]
  | some j => cases j <;> simp [truthy]

/-- C8 counterexample: an item carrying both a question and an answer field
is nevertheless dropped (the run yields no cards) because its question is
the empty string — presence of the fields is not the code's keep condition. -/
theorem parseFlashcards_present_fields_dropped :
    (getField cxItem "question").isSome = true ∧
      (getField cxItem "answer").isSome = true ∧
      parseFlashcards cxParse "response" = [] := by
  refine ⟨rfl, rfl, rfl⟩

/-- C8 (amended): parsing a generation response never errors: an unparsable
text or a non-array parse yields the empty list; on an array, exactly the
items whose question and answer fields are both truthy are kept, converted
to string pairs — so an item is dropped exactly when its question or answer
field is absent or JS-falsy, not merely when a field is missing. -/
theorem parseFlashcards_amended (parse : String → Option Json) (raw : String) :
    (parse raw = none → parseFlashcards parse raw = []) ∧
      (∀ j, parse raw = some j → (∀ items, j ≠ Json.arr items) →
        parseFlashcards parse raw = []) ∧
      (∀ items, parse raw = some (Json.arr items) →
        parseFlashcards parse raw =
          (items.filter (fun item =>
            truthy (getField item "question") && truthy (getField item "answer"))).map
            (fun item =>
              (jsStringOfField (getField item "question"),
                jsStringOfField (getField item "answer")))) ∧
      (∀ item,
        (truthy (getField item "question") && truthy (getField item "answer")) = true ↔
          ¬ (fieldAbsentOrFalsy item "question" ∨ fieldAbsentOrFalsy item "answer")) := by
  refine ⟨?_, ?_, ?_, ?_⟩
  · intro h
    simp [parseFlashcards, h]
  · intro j hj hne
    cases j with
    | arr items => exact absurd rfl (hne items)
    | null => simp [parseFlashcards, hj]
    | bool b => simp [parseFlashcards, hj]
    | num n => simp [parseFlashcards, hj]
    | str s => simp [parseFlashcards, hj]
    | obj fields => simp [parseFlashcards, hj]
  · intro items h
    simp [parseFlashcards, h]
  · intro item
    rw [Bool.and_eq_true, truthy_iff_not_falsy, truthy_iff_not_falsy,
      fieldAbsentOrFalsy, fieldAbsentOrFalsy]
    tauto

/-- C10: every card a generation run creates back-references the whole
pending batch: its highlightIds list is exactly the ids of the source's
highlights that are flashcard highlights not yet marked generated. -/
theorem generated_cards_reference_whole_batch (sp now : String)
    (freshId : Nat → String) (hs : List Highlight) (qas : List (String × String))
    (c : Flashcard) (hc : c ∈ generatedCards sp now freshId hs qas) :
    c.highlightIds =
      (hs.filter (fun h => h.isFlashcard && ! (h.flashcardGenerated.getD false))).map
        (fun h => h.id) := by
  simp only [generatedCards, List.mem_map] at hc
  obtain ⟨p, hp, rfl⟩ := hc
  rfl

/-- Witness for C10: a concrete one-highlight, one-pair run. -/
theorem generated_cards_reference_whole_batch_witness :
    ({ id := "id0", sourcePath := "doc.pdf", highlightIds := ["h1"],
        question := "q", answer := "a", createdAt := "t1" } : Flashcard).highlightIds =
      ([gcHighlight].filter
          (fun h => h.isFlashcard && ! (h.flashcardGenerated.getD false))).map
        (fun h => h.id) :=
  generated_cards_reference_whole_batch "doc.pdf" "t1" (fun _ => "id0")
    [gcHighlight] [("q", "a")] _ (by decide)

/-- Updating the groups Map in place changes only the pushed color's list. -/
theorem groupGet_map_update (c : HighlightColor) (h : Highlight)
    (c' : HighlightColor) (m : List (HighlightColor × List Highlight)) :
    groupGet (m.map (fun e => if e.1 = c then (e.1, e.2 ++ [h]) else e)) c' =
      (groupGet m c').map (fun l => if c' = c then l ++ [h] else l) := by
  induction m with
  | nil => simp [groupGet]
  | cons e t ih =>
    obtain ⟨k, l⟩ := e
    by_cases hk' : k = c'
    · subst hk'
      by_cases hk : k = c <;>
        simp [groupGet, List.find?_cons_of_pos, hk]
    · have hne : ¬ ((if k = c then (k, l ++ [h]) else (k, l)).1 = c') := by
        by_cases hk : k = c
        · subst hk
          simpa using hk'
        · simpa [hk] using hk'
      simp only [groupGet, List.map_cons] at ih ⊢
      rw [List.find?_cons_of_neg _ (by simpa using hne),
        List.find?_cons_of_neg _ (by simpa using hk')]
      exact ih

/-- A push onto the groups Map appends the highlight to its color's list
(creating the entry if absent) and leaves every other color's entry alone. -/
theorem groupGet_pushGroup (m : List (HighlightColor × List Highlight))
    (c c' : HighlightColor) (h : Highlight) :
    groupGet (pushGroup m c h) c' =
      if c' = c then some ((groupGet m c).getD [] ++ [h]) else groupGet m c' := by
  unfold pushGroup
  by_cases hany : m.any (fun e => e.1 = c)
  · rw [if_pos hany, groupGet_map_update]
    have hsome : (groupGet m c).isSome := by
      rw [List.any_eq_true] at hany
      obtain ⟨e, he, hec⟩ := hany
      simp only [groupGet, Option.isSome_map']
      rw [List.find?_isSome]
      exact ⟨e, he, hec⟩
    obtain ⟨l, hl⟩ := Option.isSome_iff_exists.mp hsome
    by_cases hc' : c' = c
    · subst hc'
      simp [hl]
    · simp only [hc', if_false]
      cases groupGet m c' <;> simp [hc']
  · rw [if_neg hany]
    have hmc : List.find? (fun e => decide (e.1 = c)) m = none := by
      rw [List.find?_eq_none]
      intro e he hec
      exact hany (List.any_eq_true.mpr ⟨e, he, hec⟩)
    by_cases hc' : c' = c
    · subst hc'
      simp [groupGet, List.find?_append, hmc, List.find?]
    · have hcc : ¬ (c = c') := fun hcc2 => hc' hcc2.symm
      have htail : List.find? (fun e => decide (e.1 = c'))
          ([(c, [h])] : List (HighlightColor × List Highlight)) = none := by
        simp [List.find?, hcc]
      simp [groupGet, List.find?_append, htail, Option.or_none, hc']

/-- The groups Map the export builds holds, under each color, exactly the
input's highlights of that color in input order, and no entry at all for a
color that never occurs. -/
theorem groupGet_buildGroups (hs : List Highlight) (c : HighlightColor) :
    groupGet (buildGroups hs) c =
      if (hs.filter (fun h => h.color = c)).isEmpty then none
      else some (hs.filter (fun h => h.color = c)) := by
  have aux : ∀ (t : List Highlight) (m : List (HighlightColor × List Highlight))
      (c : HighlightColor),
      groupGet (t.foldl (fun m h => pushGroup m h.color h) m) c =
        match groupGet m c with
        | some l => some (l ++ t.filter (fun h => h.color = c))
        | none =>
          if (t.filter (fun h => h.color = c)).isEmpty then none
          else some (t.filter (fun h => h.color = c)) := by
    intro t
    induction t with
    | nil =>
      intro m c
      cases hg : groupGet m c <;> simp [hg]
    | cons h t ih =>
      intro m c
      simp only [List.foldl_cons]
      rw [ih (pushGroup m h.color h) c, groupGet_pushGroup]
      by_cases hc : c = h.color
      · rw [if_pos hc, hc]
        cases hg : groupGet m h.color with
        | none => simp [List.filter_cons, hg]
        | some l => simp [List.filter_cons, hg]
      · rw [if_neg hc]
        have hcc : ¬ (h.color = c) := fun hh => hc hh.symm
        have hfe : List.filter (fun h2 => decide (h2.color = c)) (h :: t) =
            List.filter (fun h2 => decide (h2.color = c)) t := by
          simp [List.filter_cons, hcc]
        rw [hfe]
  have := aux hs [] c
  simpa [buildGroups, groupGet, List.find?] using this

/-- First-occurrence de-duplication keeps exactly the original elements. -/
theorem mem_dedupFirst (l : List Int) (a : Int) : a ∈ dedupFirst l ↔ a ∈ l := by
  induction l using dedupFirst.induct with
  | case1 => simp [dedupFirst]
  | case2 x xs ih =>
    rw [dedupFirst]
    simp only [List.mem_cons, ih, List.mem_filter]
    by_cases ha : a = x
    · simp [ha]
    · simp [ha]

/-- First-occurrence de-duplication yields a list without duplicates. -/
theorem nodup_dedupFirst (l : List Int) : (dedupFirst l).Nodup := by
  induction l using dedupFirst.induct with
  | case1 => simp [dedupFirst]
  | case2 x xs ih =>
    rw [dedupFirst]
    refine List.nodup_cons.mpr ⟨?_, ih⟩
    intro hmem
    rw [mem_dedupFirst, List.mem_filter] at hmem
    simpa using hmem.2

/-- C9: the export equals the spec-worded export (fixed color order, heading
only for non-empty groups, one bullet per highlight, no-annotations marker on
empty input); it is a pure function of the highlight list, so repeating it
reproduces the same text; and each bullet's page list is ascending, free of
duplicates, holds exactly the highlight's 1-based page numbers, and is empty
exactly when the highlight has no page entries. -/
theorem annotation_export_properties (file : String) (hs : List Highlight) :
    buildAnnotationMarkdown file hs = annotationSpecText hs ∧
      buildAnnotationMarkdown file hs = buildAnnotationMarkdown file hs ∧
      buildAnnotationMarkdown file [] = "_No annotations found._" ∧
      (∀ h : Highlight,
        List.Sorted (fun a b => a ≤ b) (sortedPages h) ∧
          (sortedPages h).Nodup ∧
          (∀ n : Int, n ∈ sortedPages h ↔ n ∈ h.pages.map (fun p => p.page + 1)) ∧
          (sortedPages h = [] ↔ h.pages = [])) := by
  have foldseg : ∀ (cs : List HighlightColor) (acc : List String),
      cs.foldl
        (fun lines color =>
          match groupGet (buildGroups hs) color with
          | none => lines
          | some list =>
            if list.isEmpty then lines
            else lines ++ ("## " ++ titleForColor color) :: list.map bulletLine ++ [""])
        acc =
      acc ++ (cs.map (fun color =>
        if (hs.filter (fun h => h.color = color)).isEmpty then []
        else ("## " ++ titleForColor color) ::
          (hs.filter (fun h => h.color = color)).map bulletLine ++ [""])).flatten := by
    intro cs
    induction cs with
    | nil => intro acc; simp
    | cons c cs ih =>
      intro acc
      rw [List.foldl_cons, groupGet_buildGroups hs c]
      by_cases hfc : (hs.filter (fun h => h.color = c)).isEmpty
      · rw [if_pos hfc]
        dsimp only
        rw [ih acc, List.map_cons, List.flatten_cons, if_pos hfc, List.nil_append]
      · rw [if_neg hfc]
        dsimp only
        rw [if_neg hfc, ih, List.map_cons, List.flatten_cons, if_neg hfc]
        simp only [List.cons_append, List.append_assoc, List.singleton_append]
  refine ⟨?_, rfl, rfl, ?_⟩
  · by_cases hempty : hs.isEmpty
    · rw [List.isEmpty_iff] at hempty
      subst hempty
      rfl
    · simp only [buildAnnotationMarkdown, annotationSpecText, hempty, if_false]
      rw [foldseg]
      simp
  · intro h
    have hperm := List.perm_insertionSort (fun a b => a ≤ b)
      (dedupFirst (h.pages.map (fun p => p.page + 1)))
    refine ⟨List.sorted_insertionSort _ _, hperm.symm.nodup (nodup_dedupFirst _), ?_, ?_⟩
    · intro n
      rw [sortedPages, hperm.mem_iff, mem_dedupFirst]
    · rw [sortedPages, ← List.length_eq_zero, hperm.length_eq, List.length_eq_zero]
      cases hp : h.pages with
      | nil => simp [dedupFirst]
      | cons p ps => simp [dedupFirst]

end StudyAssist
